import Mathlib

/-!
Shallow embedding of the document-extraction pipeline
(`extraction_chain.py`, `confidence_scorer.py`, `validation_engine.py`,
`main.py`, `schemas.py`) and proofs about its reconciliation, scoring,
validation and classification logic.

Modelling conventions:
* Python floats are modelled as exact rationals (`ℚ`).
* Python string truthiness is emptiness; string operations (`strip`,
  `lower`, `split`, substring tests) are modelled by structurally
  recursive functions over the underlying character lists, so that the
  kernel can evaluate them on concrete inputs.
* Fallible operations (`float(...)`, `json.loads`, a validation predicate
  raising) are modelled with `Option`/`Except`.
* Python dicts that are built by insertion and iterated in insertion order
  are modelled as association lists preserving first-insertion order.
-/

namespace DocExtract

/-- Number of occurrences of the string `x` in the list `l`
(the multiplicity that `collections.Counter` assigns to `x`). -/
def countOcc (x : String) (l : List String) : ℕ :=
  (l.filter fun y => y = x).length

/-- Index of the first occurrence of `v` in a list of strings
(equals the list's length when `v` is absent). -/
def firstIdx (v : String) : List String → ℕ
  | [] => 0
  | x :: xs => if x = v then 0 else firstIdx v xs + 1

/-- Prefix test on character lists (structurally recursive so that the
kernel can evaluate it on literals; the core `String` functions are
defined by well-founded recursion and do not reduce). -/
def isPrefixOfChars : List Char → List Char → Bool
  | [], _ => true
  | _ :: _, [] => false
  | a :: as, b :: bs => a == b && isPrefixOfChars as bs

/-- Occurrence test on character lists. -/
def containsChars (needle : List Char) : List Char → Bool
  | [] => needle.isEmpty
  | c :: rest => isPrefixOfChars needle (c :: rest) || containsChars needle rest

/-- Python's substring test `kw in s`. -/
def containsSub (s kw : String) : Bool :=
  containsChars kw.data s.data

/-- Python `str.strip()`: drop leading and trailing whitespace. -/
def pyStrip (s : String) : String :=
  ⟨((s.data.dropWhile Char.isWhitespace).reverse.dropWhile Char.isWhitespace).reverse⟩

/-- Python `str.lower()` (ASCII case folding suffices here). -/
def pyLower (s : String) : String :=
  ⟨s.data.map Char.toLower⟩

/-- Drop the first `n` characters. -/
def pyDrop (s : String) (n : ℕ) : String :=
  ⟨s.data.drop n⟩

/-- Drop the last `n` characters. -/
def pyDropRight (s : String) (n : ℕ) : String :=
  ⟨s.data.take (s.data.length - n)⟩

/-- Does `s` start with `pre`? -/
def startsWithChars (s pre : String) : Bool :=
  isPrefixOfChars pre.data s.data

/-- Does `s` end with `suf`? -/
def endsWithChars (s suf : String) : Bool :=
  isPrefixOfChars suf.data.reverse s.data.reverse

/-- Fuel-driven splitting of a character list at every non-overlapping
occurrence of `sep` (left to right); the fuel, instantiated with the
list's length, makes the recursion structural. -/
def splitOnFuel (sep : List Char) : ℕ → List Char → List Char → List (List Char)
  | _, [], acc => [acc.reverse]
  | 0, rest, acc => [acc.reverse ++ rest]
  | fuel + 1, c :: cs, acc =>
    if isPrefixOfChars sep (c :: cs) then
      acc.reverse :: splitOnFuel sep fuel (List.drop (sep.length - 1) cs) []
    else splitOnFuel sep fuel cs (c :: acc)

/-- Python `s.split(sep)` for a non-empty separator (the degenerate empty
separator returns the string whole). -/
def pySplitOn (s sep : String) : List String :=
  if sep.data.isEmpty then [s]
  else (splitOnFuel sep.data s.data.length s.data []).map (fun l => ⟨l⟩)

/-- Python `sep.join(parts)`. -/
def pyJoin (sep : String) : List String → String
  | [] => ""
  | x :: xs => xs.foldl (fun acc y => acc ++ sep ++ y) x

/-- One vote for a field value, as stored in `field_votes` by
`_aggregate_results` (`extraction_chain.py`, lines 197-200). -/
structure Vote where
  value : String
  confidence : ℚ
deriving DecidableEq

/-- A validated candidate dict `{'name': ..., 'value': ..., 'confidence': ...}`
as appended to `valid_fields` by `_single_extraction`
(`extraction_chain.py`, lines 59-63). -/
structure Candidate where
  name : String
  value : String
  confidence : ℚ
deriving DecidableEq

/-- `schemas.ExtractedField` (without its always-`None` `source` member,
which `_aggregate_results` never sets). Its pydantic validator requires
`0 ≤ confidence ≤ 1`; that check is modelled at the construction site in
`emit_entry` below. -/
structure ExtractedField where
  name : String
  value : String
  confidence : ℚ
deriving DecidableEq

/-- Insert a vote for field `n` into the `field_votes` association list,
appending the vote at the entry for `n` (creating the entry at the end when
`n` is new), exactly as the Python dict-of-lists is populated in
`_aggregate_results` (lines 194-200). -/
def insertVote : List (String × List Vote) → String → Vote → List (String × List Vote)
  | [], n, v => [(n, [v])]
  | (m, vs) :: rest, n, v =>
    if m = n then (m, vs ++ [v]) :: rest
    else (m, vs) :: insertVote rest n v

/-- The body of the vote-collection loop of `_aggregate_results`
(lines 176-200): skip a candidate whose (pre-trim) name or value is empty,
trim both, skip again if either trims to empty, else record the vote. -/
def addFieldVote (acc : List (String × List Vote)) (field : Candidate) : List (String × List Vote) :=
  if field.name = "" ∨ field.value = "" then acc
  else
    let name := pyStrip field.name
    let value := pyStrip field.value
    if name = "" ∨ value = "" then acc
    else insertVote acc name ⟨value, field.confidence⟩

/-- The `field_votes` map of `_aggregate_results`: all candidates of all
runs, in run order, grouped by field name. -/
def collect_votes (all_results : List (List Candidate)) : List (String × List Vote) :=
  all_results.foldl (fun acc result => result.foldl addFieldVote acc) []

/-- One step of `collections.Counter(...).most_common(1)`: keep the current
best value unless the next value has a strictly larger count (so the
first-seen value wins ties). `l` is the full vote-value list the counts
refer to. -/
def mcStep (l : List String) (best : Option String) (x : String) : Option String :=
  match best with
  | Option.none => some x
  | Option.some b => if countOcc b l < countOcc x l then some x else some b

/-- Model of `Counter(v for v in values).most_common(1)[0][0]`
(`_aggregate_results`, lines 210-211): the most frequent value, with ties
broken in favour of the value inserted into the counter first, i.e. the
value seen first in the list. -/
def most_common (l : List String) : Option String :=
  l.foldl (mcStep l) Option.none

/-- The per-field-name body of the majority-voting loop of
`_aggregate_results` (lines 205-231): pick the most common value, average
the confidences of the matching votes, apply the consistency boost, and
emit the `ExtractedField` unless the winning value is blank or the pydantic
range validator `0 ≤ confidence ≤ 1` rejects it (the raised
`ValidationError` is caught and the field skipped, lines 223-231). -/
def emit_entry (entry : String × List Vote) : Option ExtractedField :=
  if entry.2 = [] then Option.none
  else
    match most_common (entry.2.map Vote.value) with
    | Option.none => Option.none
    | Option.some w =>
      let matching := entry.2.filter fun v => v.value = w
      let avg : ℚ := (matching.map Vote.confidence).sum / (matching.length : ℚ)
      let consistency : ℚ := (matching.length : ℚ) / (entry.2.length : ℚ)
      let final : ℚ := min (avg * (1/2 + (1/2) * consistency)) 1
      if w ≠ "" ∧ pyStrip w ≠ "" then
        if 0 ≤ final ∧ final ≤ 1 then
          some { name := entry.1, value := w, confidence := final }
        else Option.none
      else Option.none

/-- `_aggregate_results` (`extraction_chain.py`, lines 169-233). -/
def aggregate_results (all_results : List (List Candidate)) : List ExtractedField :=
  (collect_votes all_results).filterMap emit_entry

/-- A Python value as it can appear in the untrusted JSON a single
extraction run decodes (scalars suffice for the candidate dicts'
members). -/
inductive PyVal where
  | null
  | str (s : String)
  | num (q : ℚ)
  | boolean (b : Bool)
deriving DecidableEq

/-- Python truthiness of a scalar value. -/
def PyVal.truthy : PyVal → Bool
  | .null => false
  | .str s => s ≠ ""
  | .num q => q ≠ 0
  | .boolean b => b

/-- Python `str(...)` coercion of a scalar value (the numeric rendering is a
representative; only string inputs reach the claims below). -/
def PyVal.pyStr : PyVal → String
  | .null => "None"
  | .str s => s
  | .num q => toString q
  | .boolean b => if b then "True" else "False"

/-- Digits of a decimal string as a natural number (no validation). -/
def natOfDigits (s : String) : ℕ :=
  s.data.foldl (fun n c => 10 * n + (c.toNat - 48)) 0

/-- Python `float(...)` applied to a string made of digits and dots:
succeeds iff there is at most one dot and at least one digit and no other
character. -/
def parseDigitsDots (s : String) : Option ℚ :=
  match pySplitOn s "." with
  | [a] =>
    if a ≠ "" ∧ a.data.all (·.isDigit) then some (natOfDigits a) else Option.none
  | [a, b] =>
    if (a ≠ "" ∨ b ≠ "") ∧ a.data.all (·.isDigit) ∧ b.data.all (·.isDigit) then
      some ((natOfDigits a : ℚ) + (natOfDigits b : ℚ) / (10 ^ b.length : ℚ))
    else Option.none
  | _ => Option.none

/-- Python `float(string)`: optional sign followed by a digits-and-dot
literal (exponents, `inf`/`nan` and underscores are not modelled; no claim
below depends on them). `Option.none` models a raised `ValueError`. -/
def parsePyFloat (s : String) : Option ℚ :=
  let t := pyStrip s
  if startsWithChars t "-" then (parseDigitsDots (pyDrop t 1)).map (fun q => -q)
  else if startsWithChars t "+" then parseDigitsDots (pyDrop t 1)
  else parseDigitsDots t

/-- Python `float(value)` on a scalar: numbers and booleans coerce, strings
are parsed, `None` raises (`Option.none`). -/
def pyFloat : PyVal → Option ℚ
  | .num q => some q
  | .boolean b => some (if b then 1 else 0)
  | .str s => parsePyFloat s
  | .null => Option.none

/-- One element of the decoded `result.get('fields', [])` list in
`_single_extraction`: either not a dict at all, or a dict whose `name`,
`value` and `confidence` keys each may be absent (`Option.none`) or hold a
scalar. -/
inductive RawItem where
  | notDict
  | dict (name value confidence : Option PyVal)
deriving DecidableEq

/-- The acceptance test of `_single_extraction`'s filter (lines 53-56):
`isinstance(field, dict) and field.get('name') and
field.get('value') is not None and str(field.get('value', '')).strip()`. -/
def candidate_passes : RawItem → Bool
  | .notDict => false
  | .dict n v _ =>
    (n.getD PyVal.null).truthy &&
    !((v.getD PyVal.null) == PyVal.null) &&
    (pyStrip (v.getD PyVal.null).pyStr ≠ "")

/-- True when processing this item raises inside the filter loop: the item
passes the name/value checks but `float(field.get('confidence', 0.5))`
raises (line 62). -/
def raises_float (item : RawItem) : Bool :=
  candidate_passes item &&
    (match item with
     | .notDict => false
     | .dict _ _ c => (pyFloat (c.getD (PyVal.num (1/2)))).isNone)

/-- The per-candidate acceptance of `_single_extraction` taken in isolation:
the validated dict (lines 59-63) when the checks pass and the confidence
coerces, `Option.none` otherwise. -/
def accept_candidate : RawItem → Option Candidate
  | .notDict => Option.none
  | .dict n v c =>
    if candidate_passes (.dict n v c) then
      match pyFloat (c.getD (PyVal.num (1/2))) with
      | Option.some q =>
        some ⟨pyStrip (n.getD PyVal.null).pyStr, pyStrip (v.getD PyVal.null).pyStr, q⟩
      | Option.none => Option.none
    else Option.none

/-- The filter loop of `_single_extraction` (lines 50-63) with its
exception flow: `Option.none` models an exception escaping the loop (a
`ValueError` from `float`), which the enclosing `except Exception` handler
turns into an empty run result. -/
def valid_fields_go : List RawItem → Option (List Candidate)
  | [] => some []
  | item :: rest =>
    match item with
    | .notDict => valid_fields_go rest
    | .dict n v c =>
      if candidate_passes (.dict n v c) then
        match pyFloat (c.getD (PyVal.num (1/2))) with
        | Option.none => Option.none
        | Option.some q =>
          (valid_fields_go rest).map
            (fun l => ⟨pyStrip (n.getD PyVal.null).pyStr, pyStrip (v.getD PyVal.null).pyStr, q⟩ :: l)
      else valid_fields_go rest

/-- The candidate list a run contributes after `_single_extraction`'s
validation loop and its `except Exception: return []` handler
(lines 50-72). -/
def valid_fields_of (items : List RawItem) : List Candidate :=
  (valid_fields_go items).getD []

/-- Outcome of one extraction run's service call and JSON decode:
`failure` covers `json.JSONDecodeError` and any other raised exception
before the filter loop (lines 67-72); `success` carries the decoded
candidate list. -/
inductive RunOutcome where
  | failure
  | success (items : List RawItem)

/-- What a run contributes to `all_results` in `extract_fields`. -/
def run_result : RunOutcome → List Candidate
  | .failure => []
  | .success items => valid_fields_of items

/-- `extract_fields` (`extraction_chain.py`, lines 14-24): aggregate the
runs' validated candidate lists by majority voting. -/
def extract_fields (runs : List RunOutcome) : List ExtractedField :=
  aggregate_results (runs.map run_result)

/-- The invoice entry of `field_defs` in `_get_field_definitions`
(lines 78-81). -/
def invoiceFields : List String :=
  ["invoice_number", "date", "vendor_name", "customer_name",
   "total_amount", "subtotal", "tax_amount", "due_date"]

/-- The medical-bill entry of `field_defs` (lines 82-85). -/
def medicalBillFields : List String :=
  ["patient_name", "date_of_service", "provider_name",
   "total_amount", "insurance_amount", "patient_responsibility"]

/-- The prescription entry of `field_defs` (lines 86-89). -/
def prescriptionFields : List String :=
  ["patient_name", "doctor_name", "medication", "dosage",
   "quantity", "date_prescribed", "pharmacy_name"]

/-- `_get_field_definitions` (lines 74-95): a truthy (non-empty) custom
list wins, otherwise `field_defs.get(doc_type, field_defs['invoice'])`. -/
def get_field_definitions (doc_type : String) (custom_fields : Option (List String)) : List String :=
  match custom_fields with
  | Option.some l =>
    if l ≠ [] then l
    else if doc_type = "invoice" then invoiceFields
    else if doc_type = "medical_bill" then medicalBillFields
    else if doc_type = "prescription" then prescriptionFields
    else invoiceFields
  | Option.none =>
    if doc_type = "invoice" then invoiceFields
    else if doc_type = "medical_bill" then medicalBillFields
    else if doc_type = "prescription" then prescriptionFields
    else invoiceFields

/-- The `re.sub(r'[^\d.]', '', amount_value)` cleaning step of
`_validate_amount_consistency` (`confidence_scorer.py`, line 156): keep
only digits and dots. -/
def cleanAmount (amount_value : String) : String :=
  String.mk (amount_value.data.filter fun c => c.isDigit || c == '.')

/-- `_validate_amount_consistency` (`confidence_scorer.py`,
lines 153-168). -/
def validate_amount_consistency (amount_value : String) : ℚ :=
  match parsePyFloat (cleanAmount amount_value) with
  | Option.some amount =>
    if 0 ≤ amount ∧ amount ≤ 1000000 then 9/10
    else if 1000000 < amount then 6/10
    else 3/10
  | Option.none => 2/10

/-- True when `s` is one or more decimal digits. -/
def isDigits (s : String) : Bool :=
  s ≠ "" && s.data.all (·.isDigit)

/-- True when `s` is all digits with length between `lo` and `hi`
(the widths `strptime`'s numeric directives accept). -/
def digitsLen (s : String) (lo hi : ℕ) : Bool :=
  isDigits s && lo ≤ s.length && s.length ≤ hi

/-- `strptime`'s `%y` pivot: two-digit years 0-68 are 2000s, 69-99 are
1900s. -/
def yyToYear (n : ℕ) : ℤ :=
  if n ≤ 68 then 2000 + n else 1900 + n

/-- Lowercased full English month names, for `%B`. -/
def monthFull : List String :=
  ["january", "february", "march", "april", "may", "june", "july",
   "august", "september", "october", "november", "december"]

/-- Lowercased abbreviated English month names, for `%b`. -/
def monthAbbr : List String :=
  ["jan", "feb", "mar", "apr", "may", "jun", "jul", "aug", "sep", "oct",
   "nov", "dec"]

/-- Case-insensitive month-name membership test. -/
def isMonthName (names : List String) (s : String) : Bool :=
  names.contains (pyLower s)

/-- A month field: 1-2 digits in 1..12. -/
def isMonthNum (s : String) : Bool :=
  digitsLen s 1 2 && 1 ≤ natOfDigits s && natOfDigits s ≤ 12

/-- A day field: 1-2 digits in 1..31 (month-specific day limits that
`datetime` additionally enforces are not modelled; no claim depends on
them). -/
def isDayNum (s : String) : Bool :=
  digitsLen s 1 2 && 1 ≤ natOfDigits s && natOfDigits s ≤ 31

/-- Format `%m<sep>%d<sep>%Y`: returns the year on success. -/
def tryMDY4 (sep s : String) : Option ℤ :=
  match pySplitOn s sep with
  | [m, d, y] =>
    if isMonthNum m && isDayNum d && digitsLen y 1 4 then
      some (natOfDigits y) else Option.none
  | _ => Option.none

/-- Format `%m<sep>%d<sep>%y` (two-digit year). -/
def tryMDY2 (sep s : String) : Option ℤ :=
  match pySplitOn s sep with
  | [m, d, y] =>
    if isMonthNum m && isDayNum d && digitsLen y 1 2 then
      some (yyToYear (natOfDigits y)) else Option.none
  | _ => Option.none

/-- Format `%d<sep>%m<sep>%Y`. -/
def tryDMY4 (sep s : String) : Option ℤ :=
  match pySplitOn s sep with
  | [d, m, y] =>
    if isDayNum d && isMonthNum m && digitsLen y 1 4 then
      some (natOfDigits y) else Option.none
  | _ => Option.none

/-- Format `%Y<sep>%m<sep>%d`. -/
def tryYMD (sep s : String) : Option ℤ :=
  match pySplitOn s sep with
  | [y, m, d] =>
    if digitsLen y 1 4 && isMonthNum m && isDayNum d then
      some (natOfDigits y) else Option.none
  | _ => Option.none

/-- Formats `"%B %d, %Y"` / `"%b %d, %Y"` (month name, day with a trailing
comma, year). -/
def tryMonthNameDY (names : List String) (s : String) : Option ℤ :=
  match pySplitOn s " " with
  | [mon, dc, y] =>
    if isMonthName names mon && endsWithChars dc "," && isDayNum (pyDropRight dc 1)
        && digitsLen y 1 4 then
      some (natOfDigits y) else Option.none
  | _ => Option.none

/-- Format `"%d %B %Y"`. -/
def tryDMonthNameY (names : List String) (s : String) : Option ℤ :=
  match pySplitOn s " " with
  | [d, mon, y] =>
    if isDayNum d && isMonthName names mon && digitsLen y 1 4 then
      some (natOfDigits y) else Option.none
  | _ => Option.none

/-- `_parse_date` (`confidence_scorer.py`, lines 187-205): try the eleven
`strptime` formats in order on the trimmed string; the first success wins.
Only the parsed year is retained, since `_validate_date_consistency` reads
nothing else. -/
def parse_date (date_string : String) : Option ℤ :=
  let t := pyStrip date_string
  tryMDY4 "/" t <|> tryMDY4 "-" t <|> tryYMD "-" t <|>
  tryMDY2 "/" t <|> tryMDY2 "-" t <|> tryDMY4 "/" t <|>
  tryMonthNameDY monthFull t <|> tryMonthNameDY monthAbbr t <|>
  tryDMonthNameY monthFull t <|> tryDMY4 "-" t <|> tryYMD "/" t

/-- `_validate_date_consistency` (`confidence_scorer.py`, lines 137-151).
The source reads `datetime.now().year`; the current year is passed
explicitly here. -/
def validate_date_consistency (currentYear : ℤ) (date_value : String) : ℚ :=
  match parse_date date_value with
  | Option.some y => if 1900 ≤ y ∧ y ≤ currentYear + 5 then 9/10 else 4/10
  | Option.none => 3/10

/-- `_validate_name_consistency` (`confidence_scorer.py`, lines 170-185).
`str.split()` is modelled as splitting on single spaces and dropping empty
pieces. -/
def validate_name_consistency (name_value : String) : ℚ :=
  if name_value = "" ∨ (pyStrip name_value).length < 2 then 2/10
  else
    let words := (pySplitOn (pyStrip name_value) " ").filter (· ≠ "")
    if words.length = 1 then 6/10
    else if 2 ≤ words.length then 8/10
    else 5/10

/-- `_context_confidence` (`confidence_scorer.py`, lines 70-86): empty or
blank values short-circuit to 0, then the keyword dispatch runs on the
lowercased field name, `date` before `amount`/`total`/`price` before
`name`, defaulting to 0.7. -/
def context_confidence (currentYear : ℤ) (field_name value : String) : ℚ :=
  if value = "" ∨ pyStrip value = "" then 0
  else
    let fl := pyLower field_name
    if containsSub fl "date" then validate_date_consistency currentYear value
    else if containsSub fl "amount" || containsSub fl "total" || containsSub fl "price" then
      validate_amount_consistency value
    else if containsSub fl "name" then validate_name_consistency value
    else 7/10

/-- Insert into an ascending list (the building block of the sorting used
to model Python's `sorted`). -/
def insertAsc (x : ℚ) : List ℚ → List ℚ
  | [] => [x]
  | y :: ys => if x ≤ y then x :: y :: ys else y :: insertAsc x ys

/-- Model of Python's `sorted` on rationals (insertion sort, ascending). -/
def pySorted (l : List ℚ) : List ℚ :=
  l.foldr insertAsc []

/-- `calculate_overall_confidence` (`confidence_scorer.py`,
lines 207-236). The slice `sorted_scores[trim_count:-trim_count]` is
`take (length - trim_count)` then `drop trim_count`. The `except` fallback
around the harmonic mean is unreachable (every term `1/max(score, 0.01)`
is well defined), so it is not represented. -/
def calculate_overall_confidence (field_confidences : List ℚ) : ℚ :=
  if field_confidences = [] then 0
  else
    let valid_scores := field_confidences.filter fun s => 0 < s
    if valid_scores = [] then 0
    else
      let trimmed_scores :=
        if 4 < valid_scores.length then
          let sorted_scores := pySorted valid_scores
          let trim_count := max 1 (valid_scores.length / 10)
          (sorted_scores.take (sorted_scores.length - trim_count)).drop trim_count
        else valid_scores
      if trimmed_scores = [] then valid_scores.sum / (valid_scores.length : ℚ)
      else
        min ((trimmed_scores.length : ℚ) /
          ((trimmed_scores.map fun s => 1 / max s (1/100)).sum)) 1

/-- The trimmed score set `calculate_overall_confidence` averages, as a
standalone function (for stating the trimming clauses of the spec). -/
def trimmed_scores_of (l : List ℚ) : List ℚ :=
  if 4 < (l.filter fun s => 0 < s).length then
    ((pySorted (l.filter fun s => 0 < s)).take
      ((pySorted (l.filter fun s => 0 < s)).length -
        max 1 ((l.filter fun s => 0 < s).length / 10))).drop
      (max 1 ((l.filter fun s => 0 < s).length / 10))
  else l.filter fun s => 0 < s

/-- The overall-confidence branch of `process_document` (`main.py`,
lines 212-217): the scorer runs only when fields exist, otherwise the
overall confidence is 0.0. -/
def process_overall_confidence (fields : List ExtractedField) : ℚ :=
  if fields ≠ [] then calculate_overall_confidence (fields.map ExtractedField.confidence)
  else 0

/-- The medical-bill keywords of `_classify_from_text` (`main.py`,
line 247). -/
def medical_keywords : List String :=
  ["patient", "medical", "hospital", "doctor", "physician", "clinic",
   "healthcare", "insurance", "copay", "deductible"]

/-- The prescription keywords (`main.py`, line 251). -/
def prescription_keywords : List String :=
  ["prescription", "medication", "pharmacy", "rx", "dosage", "pills",
   "tablets", "mg", "refill"]

/-- The invoice keywords (`main.py`, line 255). -/
def invoice_keywords : List String :=
  ["invoice", "bill", "receipt", "payment", "total", "subtotal", "tax",
   "amount", "due", "vendor"]

/-- `sum(1 for keyword in keywords if keyword in text_lower)`: the number
of keywords of the set that occur as substrings of the text. -/
def keyword_score (keywords : List String) (text_lower : String) : ℕ :=
  (keywords.filter fun k => containsSub text_lower k).length

/-- Python `max(scores.items(), key=lambda x: x[1])[0]` on a non-empty
association list: the first key whose score no later key strictly
exceeds. -/
def pyMaxKey (fallback : String) : List (String × ℕ) → String
  | [] => fallback
  | (k, v) :: rest =>
    (rest.foldl (fun best kv => if best.2 < kv.2 then kv else best) (k, v)).1

/-- `_classify_from_text` (`main.py`, lines 242-265). -/
def classify_from_text (text : String) : String :=
  let tl := pyLower text
  pyMaxKey "invoice"
    [("medical_bill", keyword_score medical_keywords tl),
     ("prescription", keyword_score prescription_keywords tl),
     ("invoice", keyword_score invoice_keywords tl)]

/-- A field dict as handed to `validate_extraction` by `process_document`
(`main.py`, line 209): name, value, confidence. -/
structure VField where
  name : String
  value : String
  confidence : ℚ
deriving DecidableEq

/-- A validation predicate as stored in `ValidationEngine.rules`: its
Python `__name__` and its body; `Except.error` models a raised
exception (with its message). -/
structure PyRule where
  funcName : String
  run : List (String × String) → Except String Bool

/-- Python `str.replace(old, new)`: replace every non-overlapping
occurrence, via split and join. -/
def replaceAll (s old new : String) : String :=
  pyJoin new (pySplitOn s old)

/-- Upsert into the `field_dict` comprehension
`{field['name']: field['value'] for field in fields}`: later duplicates
overwrite the value, insertion order is kept. -/
def upsert (acc : List (String × String)) (k v : String) : List (String × String) :=
  if acc.any (fun e => e.1 = k) then
    acc.map (fun e => if e.1 = k then (k, v) else e)
  else acc ++ [(k, v)]

/-- The name→value dict of `validate_extraction` (line 36). -/
def buildFieldDict (fields : List VField) : List (String × String) :=
  fields.foldl (fun acc f => upsert acc f.name f.value) []

/-- The body of the rule loop of `validate_extraction`
(`validation_engine.py`, lines 41-50): each rule's display name is its
`__name__` with `_validate_` removed; a raised exception appends
`__name__ + "_error"` to the failed list plus a diagnostic note and the
loop continues with the next rule. The accumulator is
(passed, failed, notes). -/
def rule_step (fd : List (String × String))
    (acc : List String × List String × List String) (rf : PyRule) :
    List String × List String × List String :=
  let rule_name := replaceAll rf.funcName "_validate_" ""
  match rf.run fd with
  | Except.ok true => (acc.1 ++ [rule_name], acc.2.1, acc.2.2)
  | Except.ok false => (acc.1, acc.2.1 ++ [rule_name], acc.2.2)
  | Except.error e =>
    (acc.1, acc.2.1 ++ [rf.funcName ++ "_error"],
     acc.2.2 ++ ["Validation error in " ++ rf.funcName ++ ": " ++ e])

/-- The rule loop of `validate_extraction` (lines 41-50). -/
def validate_rules_loop (rules : List PyRule) (fd : List (String × String)) :
    List String × List String × List String :=
  rules.foldl (rule_step fd) ([], [], [])

/-- `validate_extraction` (`validation_engine.py`, lines 25-57),
parameterized by the rule list `self.rules.get(doc_type, [])` selects
(the concrete per-type predicates are regex shims irrelevant to the claims
below). After the loop, a note counting fields with confidence below 0.6
is appended when any exist, and the notes are joined with `"; "`. -/
def validate_extraction (rules : List PyRule) (fields : List VField) :
    List String × List String × String :=
  let fd := buildFieldDict fields
  let r := validate_rules_loop rules fd
  let lowCount := (fields.filter fun f => f.confidence < 6/10).length
  let notes := if lowCount ≠ 0 then r.2.2 ++ [toString lowCount ++ " low-confidence fields"] else r.2.2
  (r.1, r.2.1, pyJoin "; " notes)

/-- The spec's consistency-boost formula for a reconciled field, stated
over a vote list and a winning value `w`:
`min(avg_confidence * (0.5 + 0.5 * matching_votes/total_votes), 1.0)`,
where `avg_confidence` averages the confidences of the votes whose value
is `w`. -/
def consistency_boosted_confidence (votes : List Vote) (w : String) : ℚ :=
  min ((((votes.filter fun v => v.value = w).map Vote.confidence).sum /
        ((votes.filter fun v => v.value = w).length : ℚ)) *
    (1/2 + (1/2) * (((votes.filter fun v => v.value = w).length : ℚ) /
        (votes.length : ℚ)))) 1

/-- Claim C10: for every doc_type outside the three known ones, when no
custom field list is supplied, `_get_field_definitions` (and hence
`extract_fields`, which feeds its result into the extraction prompt)
targets the default invoice vocabulary of 8 field names. -/
theorem unknown_doc_type_defaults_to_invoice :
    ∀ doc_type : String,
      doc_type ≠ "invoice" → doc_type ≠ "medical_bill" → doc_type ≠ "prescription" →
      get_field_definitions doc_type Option.none = invoiceFields ∧
      invoiceFields.length = 8 := by
  intro d h1 h2 h3
  refine ⟨?_, rfl⟩
  simp [get_field_definitions, h1, h2, h3]

/-- Witness for C10 at the unknown doc_type `"receipt"`. -/
theorem unknown_doc_type_defaults_to_invoice_witness :
    get_field_definitions "receipt" Option.none = invoiceFields ∧
    invoiceFields.length = 8 :=
  unknown_doc_type_defaults_to_invoice "receipt" (by decide) (by decide) (by decide)

/-- Claim C5: when all N extraction runs fail, `extract_fields` returns an
empty field list (the `except` handlers model the absence of a raised
exception); a failed run, wherever it occurs, contributes nothing — the
aggregate over the remaining runs is unchanged; and `process_document`
then reports overall confidence 0 instead of an error. -/
theorem all_runs_fail_empty_result :
    (∀ n : ℕ, extract_fields (List.replicate n RunOutcome.failure) = []) ∧
    (∀ pre post : List RunOutcome,
      extract_fields (pre ++ RunOutcome.failure :: post) = extract_fields (pre ++ post)) ∧
    process_overall_confidence (extract_fields (List.replicate 3 RunOutcome.failure)) = 0 := by
  have hmid : ∀ pre post : List RunOutcome,
      extract_fields (pre ++ RunOutcome.failure :: post) = extract_fields (pre ++ post) := by
    intro pre post
    unfold extract_fields aggregate_results collect_votes
    rw [List.map_append, List.map_append, List.map_cons,
      List.foldl_append, List.foldl_append, List.foldl_cons]
    rfl
  have hrep : ∀ n : ℕ, extract_fields (List.replicate n RunOutcome.failure) = [] := by
    intro n
    induction n with
    | zero => rfl
    | succ k ih =>
      have := hmid [] (List.replicate k RunOutcome.failure)
      simpa [ih] using this
  refine ⟨hrep, hmid, ?_⟩
  rw [hrep 3]
  rfl

/-- Helper for C3: the filter loop of `_single_extraction`, with its
exception flow, equals the per-candidate filter when no candidate makes
`float` raise, and yields the exception marker otherwise. -/
theorem valid_fields_go_spec (items : List RawItem) :
    valid_fields_go items =
      if items.any raises_float then Option.none
      else some (items.filterMap accept_candidate) := by
  induction items with
  | nil => rfl
  | cons item rest ih =>
    cases item with
    | notDict =>
      simp [valid_fields_go, List.any_cons, raises_float, candidate_passes,
        List.filterMap_cons, accept_candidate, ih]
    | dict n v c =>
      by_cases hp : candidate_passes (RawItem.dict n v c) = true
      · have h0 : valid_fields_go (RawItem.dict n v c :: rest) =
            (if candidate_passes (RawItem.dict n v c) = true then
              match pyFloat (c.getD (PyVal.num (1/2))) with
              | Option.none => Option.none
              | Option.some q =>
                (valid_fields_go rest).map
                  (fun l => ⟨pyStrip (n.getD PyVal.null).pyStr,
                    pyStrip (v.getD PyVal.null).pyStr, q⟩ :: l)
            else valid_fields_go rest) := rfl
        have h1 : valid_fields_go (RawItem.dict n v c :: rest) =
            (match pyFloat (c.getD (PyVal.num (1/2))) with
             | Option.none => Option.none
             | Option.some q =>
               (valid_fields_go rest).map
                 (fun l => ⟨pyStrip (n.getD PyVal.null).pyStr,
                   pyStrip (v.getD PyVal.null).pyStr, q⟩ :: l)) := by
          rw [h0, if_pos hp]
        cases hc : pyFloat (c.getD (PyVal.num (1/2))) with
        | none =>
          have hr : raises_float (RawItem.dict n v c) = true := by
            unfold raises_float
            rw [hp]
            dsimp only
            rw [hc]
            rfl
          rw [h1, hc, List.any_cons, hr]
          simp
        | some q =>
          have hr : raises_float (RawItem.dict n v c) = false := by
            unfold raises_float
            rw [hp]
            dsimp only
            rw [hc]
            rfl
          have ha : accept_candidate (RawItem.dict n v c) =
              some ⟨pyStrip (n.getD PyVal.null).pyStr,
                pyStrip (v.getD PyVal.null).pyStr, q⟩ := by
            unfold accept_candidate
            dsimp only
            rw [if_pos hp, hc]
          rw [h1, hc, ih, List.any_cons, hr, List.filterMap_cons, ha]
          by_cases hrest : rest.any raises_float = true
          · simp [hrest]
          · simp [hrest]
      · have hp' : candidate_passes (RawItem.dict n v c) = false :=
          Bool.not_eq_true _ ▸ eq_false_of_ne_true hp
        have h0 : valid_fields_go (RawItem.dict n v c :: rest) =
            (if candidate_passes (RawItem.dict n v c) = true then
              match pyFloat (c.getD (PyVal.num (1/2))) with
              | Option.none => Option.none
              | Option.some q =>
                (valid_fields_go rest).map
                  (fun l => ⟨pyStrip (n.getD PyVal.null).pyStr,
                    pyStrip (v.getD PyVal.null).pyStr, q⟩ :: l)
            else valid_fields_go rest) := rfl
        have h1 : valid_fields_go (RawItem.dict n v c :: rest) = valid_fields_go rest := by
          rw [h0, if_neg hp]
        have hr : raises_float (RawItem.dict n v c) = false := by
          unfold raises_float
          rw [hp']
          rfl
        have ha : accept_candidate (RawItem.dict n v c) = Option.none := by
          unfold accept_candidate
          dsimp only
          rw [if_neg hp]
        rw [h1, ih, List.any_cons, hr, List.filterMap_cons, ha]
        simp

/-- Claim C3 (amended): the name/value checks of `_single_extraction` are
applied per candidate, but a candidate that passes them and whose
confidence does not coerce to a float makes `float(...)` raise, and the
run's `except` handler then discards the whole run: the run yields zero
candidates, including the other, valid candidates. When no candidate
raises, the result is exactly the per-candidate filter (note the name
check is Python truthiness of the untrimmed name, so a whitespace-only
name is kept, trimmed to the empty string). -/
theorem run_filtering_characterization :
    ∀ items : List RawItem,
      valid_fields_of items =
        if items.any raises_float then [] else items.filterMap accept_candidate := by
  intro items
  unfold valid_fields_of
  rw [valid_fields_go_spec]
  by_cases h : items.any raises_float
  · simp [h]
  · simp [h]

/-- Claim C3 counterexample: a valid candidate (`total`) followed by a
candidate whose confidence is the non-numeric string `"abc"` yields an
empty run — the valid candidate is lost, though alone it is accepted; and
a whitespace-only name passes the filter (kept with name trimmed to
`""`), though the claim says names empty after trimming are discarded. -/
theorem per_candidate_filtering_counterexample :
    valid_fields_of
      [RawItem.dict (some (PyVal.str "total")) (some (PyVal.str "10"))
        (some (PyVal.num (9/10))),
       RawItem.dict (some (PyVal.str "x")) (some (PyVal.str "y"))
        (some (PyVal.str "abc"))] = [] ∧
    valid_fields_of
      [RawItem.dict (some (PyVal.str "total")) (some (PyVal.str "10"))
        (some (PyVal.num (9/10)))] = [⟨"total", "10", 9/10⟩] ∧
    valid_fields_of
      [RawItem.dict (some (PyVal.str " ")) (some (PyVal.str "10")) Option.none] =
      [⟨"", "10", 1/2⟩] := by
  refine ⟨?_, ?_, ?_⟩ <;> with_unfolding_all decide

/-- A value occurring in a prefix first occurs before the prefix ends. -/
theorem firstIdx_lt_of_mem {v : String} {p : List String} (m : List String) (h : v ∈ p) :
    firstIdx v (p ++ m) < p.length := by
  induction p with
  | nil => cases h
  | cons a p ih =>
    by_cases hav : a = v
    · simp [firstIdx, hav]
    · have hvp : v ∈ p := by
        rcases List.mem_cons.mp h with h' | h'
        · exact absurd h'.symm hav
        · exact h'
      simp only [List.cons_append, firstIdx, if_neg hav, List.length_cons]
      exact Nat.succ_lt_succ (ih hvp)

/-- A value absent from a prefix first occurs at or after the prefix's
end. -/
theorem le_firstIdx_of_not_mem {v : String} {p : List String} (m : List String) (h : v ∉ p) :
    p.length ≤ firstIdx v (p ++ m) := by
  induction p with
  | nil => exact Nat.zero_le _
  | cons a p ih =>
    have hav : ¬a = v := fun he => h (he ▸ List.mem_cons_self a p)
    have hvp : v ∉ p := fun hm => h (List.mem_cons_of_mem _ hm)
    simp only [List.cons_append, firstIdx, if_neg hav, List.length_cons]
    exact Nat.succ_le_succ (ih hvp)

/-- Invariant of the `most_common` fold: starting from a best value that
dominates a prefix, the fold over the remaining values produces a value of
maximal multiplicity whose first occurrence is earliest among the
maximal-count values. -/
theorem mc_fold_spec (l : List String) :
    ∀ (m p : List String) (b : String), l = p ++ m → b ∈ p →
      (∀ v ∈ p, countOcc v l ≤ countOcc b l) →
      (∀ v ∈ p, countOcc v l = countOcc b l → firstIdx b l ≤ firstIdx v l) →
      ∃ w, m.foldl (mcStep l) (some b) = some w ∧ w ∈ l ∧
        (∀ v ∈ l, countOcc v l ≤ countOcc w l) ∧
        (∀ v ∈ l, countOcc v l = countOcc w l → firstIdx w l ≤ firstIdx v l) := by
  intro m
  induction m with
  | nil =>
    intro p b hl hb hmax htie
    rw [List.append_nil] at hl
    subst hl
    exact ⟨b, rfl, hb, hmax, htie⟩
  | cons x m ih =>
    intro p b hl hb hmax htie
    rw [List.foldl_cons]
    have hstep : mcStep l (some b) x =
        if countOcc b l < countOcc x l then some x else some b := rfl
    by_cases hc : countOcc b l < countOcc x l
    · rw [hstep, if_pos hc]
      refine ih (p ++ [x]) x ?_ (by simp) ?_ ?_
      · rw [hl]
        simp
      · intro v hv
        rcases List.mem_append.mp hv with hvp | hvx
        · exact le_trans (hmax v hvp) (le_of_lt hc)
        · rw [List.mem_singleton.mp hvx]
      · intro v hv hveq
        rcases List.mem_append.mp hv with hvp | hvx
        · have := hmax v hvp
          omega
        · rw [List.mem_singleton.mp hvx]
    · rw [hstep, if_neg hc]
      refine ih (p ++ [x]) b ?_ (List.mem_append_left _ hb) ?_ ?_
      · rw [hl]
        simp
      · intro v hv
        rcases List.mem_append.mp hv with hvp | hvx
        · exact hmax v hvp
        · rw [List.mem_singleton.mp hvx]
          exact Nat.le_of_not_lt hc
      · intro v hv hveq
        rcases List.mem_append.mp hv with hvp | hvx
        · exact htie v hvp hveq
        · rw [List.mem_singleton.mp hvx] at hveq ⊢
          by_cases hxp : x ∈ p
          · exact htie x hxp hveq
          · have h1 : firstIdx b l < p.length := by
              rw [hl]
              exact firstIdx_lt_of_mem _ hb
            have h2 : p.length ≤ firstIdx x l := by
              rw [hl]
              exact le_firstIdx_of_not_mem _ hxp
            omega

/-- The winning value of `Counter(...).most_common(1)` is a value of the
list with maximal multiplicity, and among the values of maximal
multiplicity it is the one seen first. -/
theorem most_common_spec {l : List String} {w : String} (h : most_common l = some w) :
    w ∈ l ∧ (∀ v ∈ l, countOcc v l ≤ countOcc w l) ∧
      (∀ v ∈ l, countOcc v l = countOcc w l → firstIdx w l ≤ firstIdx v l) := by
  cases l with
  | nil => exact absurd h (by simp [most_common])
  | cons x xs =>
    have h0 : most_common (x :: xs) = xs.foldl (mcStep (x :: xs)) (some x) := rfl
    obtain ⟨w', hw', hmem, hmax, htie⟩ :=
      mc_fold_spec (x :: xs) xs [x] x rfl (List.mem_singleton_self x)
        (by intro v hv; rw [List.mem_singleton.mp hv])
        (by intro v hv _; rw [List.mem_singleton.mp hv])
    rw [h0, hw'] at h
    cases h
    exact ⟨hmem, hmax, htie⟩

/-- Characterization of `emit_entry`: a field is emitted exactly from a
non-empty vote list, carries the `most_common` winner as value, and its
confidence is the boosted average that passed the pydantic range check. -/
theorem emit_entry_char {name : String} {votes : List Vote} {f : ExtractedField}
    (h : emit_entry (name, votes) = some f) :
    votes ≠ [] ∧ ∃ w, most_common (votes.map Vote.value) = some w ∧
      w ≠ "" ∧ pyStrip w ≠ "" ∧
      f.name = name ∧ f.value = w ∧
      f.confidence = consistency_boosted_confidence votes w ∧
      0 ≤ f.confidence ∧ f.confidence ≤ 1 := by
  unfold emit_entry at h
  by_cases hne : votes = []
  · rw [if_pos hne] at h
    exact absurd h (by simp)
  · rw [if_neg hne] at h
    dsimp only at h
    cases hmc : most_common (votes.map Vote.value) with
    | none =>
      rw [hmc] at h
      exact absurd h (by simp)
    | some w =>
      rw [hmc] at h
      dsimp only at h
      split at h
      next hguard =>
        split at h
        next hrange =>
          cases h
          exact ⟨hne, w, rfl, hguard.1, hguard.2, rfl, rfl, rfl, hrange.1, hrange.2⟩
        next hrange => exact absurd h (by simp)
      next hguard => exact absurd h (by simp)

/-- Claim C1: for every field name with at least one valid vote, the
reconciled confidence of the emitted field equals
`min(avg_confidence * (0.5 + 0.5 * matching_votes/total_votes), 1.0)`,
where `avg_confidence` is the mean confidence of the votes matching the
winning value, `matching_votes` their number, and `total_votes` the number
of votes collected for that field name across all runs. -/
theorem reconciled_confidence_formula :
    ∀ (all_results : List (List Candidate)) (name : String) (votes : List Vote)
      (f : ExtractedField),
      (name, votes) ∈ collect_votes all_results →
      emit_entry (name, votes) = some f →
      votes ≠ [] ∧ ∃ w, most_common (votes.map Vote.value) = some w ∧
        f.confidence = consistency_boosted_confidence votes w := by
  intro rs name votes f _ hemit
  obtain ⟨hne, w, hw, _, _, _, _, hconf, _, _⟩ := emit_entry_char hemit
  exact ⟨hne, w, hw, hconf⟩

/-- Witness for C1 on the spec's partial-disagreement scenario: two of
three runs vote `03/15/2024` (confidences 0.9 and 0.8), one votes
`03/16/2024`; reconciled confidence is 0.85 * 5/6 = 17/24. -/
theorem reconciled_confidence_formula_witness :
    ([⟨"03/15/2024", 9/10⟩, ⟨"03/15/2024", 8/10⟩, ⟨"03/16/2024", 7/10⟩] : List Vote) ≠ [] ∧
    ∃ w, most_common
        (([⟨"03/15/2024", 9/10⟩, ⟨"03/15/2024", 8/10⟩, ⟨"03/16/2024", 7/10⟩] : List Vote).map
          Vote.value) = some w ∧
      (ExtractedField.mk "date" "03/15/2024" (17/24)).confidence =
        consistency_boosted_confidence
          [⟨"03/15/2024", 9/10⟩, ⟨"03/15/2024", 8/10⟩, ⟨"03/16/2024", 7/10⟩] w :=
  reconciled_confidence_formula
    [[⟨"date", "03/15/2024", 9/10⟩], [⟨"date", "03/15/2024", 8/10⟩],
     [⟨"date", "03/16/2024", 7/10⟩]]
    "date" [⟨"03/15/2024", 9/10⟩, ⟨"03/15/2024", 8/10⟩, ⟨"03/16/2024", 7/10⟩]
    (ExtractedField.mk "date" "03/15/2024" (17/24))
    (by with_unfolding_all decide) (by with_unfolding_all decide)

/-- Claim C2: the value an emitted field carries is the most frequent
exact value string among the field name's votes across the runs, and on a
tie of maximal counts the value seen first (earliest run, earliest
position — the vote list is built in run order) wins. -/
theorem winning_value_majority_first_seen :
    ∀ (all_results : List (List Candidate)) (name : String) (votes : List Vote)
      (f : ExtractedField),
      (name, votes) ∈ collect_votes all_results →
      emit_entry (name, votes) = some f →
      f ∈ aggregate_results all_results ∧ f.name = name ∧
      f.value ∈ votes.map Vote.value ∧
      (∀ v ∈ votes.map Vote.value,
        countOcc v (votes.map Vote.value) ≤ countOcc f.value (votes.map Vote.value)) ∧
      (∀ v ∈ votes.map Vote.value,
        countOcc v (votes.map Vote.value) = countOcc f.value (votes.map Vote.value) →
        firstIdx f.value (votes.map Vote.value) ≤ firstIdx v (votes.map Vote.value)) := by
  intro rs name votes f hmem hemit
  obtain ⟨hne, w, hw, hw1, hw2, hfn, hfv, hconf, h0, h1⟩ := emit_entry_char hemit
  obtain ⟨hmm1, hmm2, hmm3⟩ := most_common_spec hw
  refine ⟨List.mem_filterMap.mpr ⟨(name, votes), hmem, hemit⟩, hfn, ?_, ?_, ?_⟩ <;> rw [hfv]
  · exact hmm1
  · exact hmm2
  · exact hmm3

/-- Witness for C2: votes `Acme, Bcme, Acme` elect `Acme`
(reconciled confidence 0.8 * 5/6 = 2/3), and `Bcme`'s count does not
exceed the winner's. -/
theorem winning_value_majority_first_seen_witness :
    (ExtractedField.mk "vendor" "Acme" (2/3)) ∈
      aggregate_results
        [[⟨"vendor", "Acme", 9/10⟩], [⟨"vendor", "Bcme", 8/10⟩],
         [⟨"vendor", "Acme", 7/10⟩]] ∧
    countOcc "Bcme" ["Acme", "Bcme", "Acme"] ≤ countOcc "Acme" ["Acme", "Bcme", "Acme"] := by
  have h := winning_value_majority_first_seen
    [[⟨"vendor", "Acme", 9/10⟩], [⟨"vendor", "Bcme", 8/10⟩], [⟨"vendor", "Acme", 7/10⟩]]
    "vendor" [⟨"Acme", 9/10⟩, ⟨"Bcme", 8/10⟩, ⟨"Acme", 7/10⟩]
    (ExtractedField.mk "vendor" "Acme" (2/3))
    (by with_unfolding_all decide) (by with_unfolding_all decide)
  exact ⟨h.1, h.2.2.2.1 "Bcme" (by with_unfolding_all decide)⟩

/-- Claim C6: every field `_aggregate_results` emits has a non-empty value
that stays non-empty after trimming and a confidence within [0, 1], and
its name has at least one valid vote in the collected vote map — a name
with no valid vote is never emitted (in particular never with an empty or
null value). -/
theorem emitted_field_invariants :
    ∀ (all_results : List (List Candidate)) (f : ExtractedField),
      f ∈ aggregate_results all_results →
      f.value ≠ "" ∧ pyStrip f.value ≠ "" ∧ 0 ≤ f.confidence ∧ f.confidence ≤ 1 ∧
      ∃ votes, (f.name, votes) ∈ collect_votes all_results ∧ votes ≠ [] := by
  intro rs f hf
  obtain ⟨⟨name, votes⟩, hmem, hemit⟩ := List.mem_filterMap.mp hf
  obtain ⟨hne, w, hw, hw1, hw2, hfn, hfv, hconf, h0, h1⟩ := emit_entry_char hemit
  refine ⟨?_, ?_, h0, h1, votes, ?_, hne⟩
  · rw [hfv]; exact hw1
  · rw [hfv]; exact hw2
  · rw [hfn]; exact hmem

/-- Inserting into an ascending list adds one element. -/
theorem insertAsc_length (x : ℚ) (l : List ℚ) : (insertAsc x l).length = l.length + 1 := by
  induction l with
  | nil => rfl
  | cons y ys ih =>
    unfold insertAsc
    by_cases h : x ≤ y
    · rw [if_pos h]
      simp
    · rw [if_neg h]
      simp [ih]

/-- Sorting preserves length. -/
theorem pySorted_length (l : List ℚ) : (pySorted l).length = l.length := by
  induction l with
  | nil => rfl
  | cons x xs ih =>
    have h : pySorted (x :: xs) = insertAsc x (pySorted xs) := rfl
    rw [h, insertAsc_length, ih]
    rfl

/-- Trimming the extreme scores never empties a non-empty valid-score set:
for at most 4 scores nothing is trimmed, and for `n ≥ 5` scores
`2 * max 1 (n / 10) < n`. -/
theorem trimmed_scores_of_ne_nil (l : List ℚ) (h : (l.filter fun s => 0 < s) ≠ []) :
    trimmed_scores_of l ≠ [] := by
  unfold trimmed_scores_of
  by_cases h4 : 4 < (l.filter fun s => 0 < s).length
  · rw [if_pos h4]
    have hlen : 0 < (((pySorted (l.filter fun s => 0 < s)).take
        ((pySorted (l.filter fun s => 0 < s)).length -
          max 1 ((l.filter fun s => 0 < s).length / 10))).drop
        (max 1 ((l.filter fun s => 0 < s).length / 10))).length := by
      rw [List.length_drop, List.length_take, pySorted_length]
      omega
    exact List.ne_nil_of_length_pos hlen
  · rw [if_neg h4]
    exact h

/-- Claim C4: `calculate_overall_confidence` returns 0 for an empty list
or when all scores are ≤ 0; `[1,1,1,1,1]` gives 1 and `[]`, `[0,0,0]` give
0; with more than 4 positive scores the result is the harmonic mean (each
score floored at 0.01) of the sorted list trimmed of its lowest and
highest `max 1 (n/10)` scores, capped at 1; if the trimmed set were empty
the arithmetic mean of the positive scores would be returned — and the
trimmed set is in fact never empty when positive scores exist. -/
theorem overall_confidence_spec :
    (∀ l : List ℚ, (∀ x ∈ l, x ≤ 0) → calculate_overall_confidence l = 0) ∧
    calculate_overall_confidence [] = 0 ∧
    calculate_overall_confidence [0, 0, 0] = 0 ∧
    calculate_overall_confidence [1, 1, 1, 1, 1] = 1 ∧
    (∀ l : List ℚ, 4 < (l.filter fun s => 0 < s).length →
      calculate_overall_confidence l =
        min (((trimmed_scores_of l).length : ℚ) /
          (((trimmed_scores_of l).map fun s => 1 / max s (1/100)).sum)) 1) ∧
    (∀ l : List ℚ, (l.filter fun s => 0 < s) ≠ [] → trimmed_scores_of l = [] →
      calculate_overall_confidence l =
        (l.filter fun s => 0 < s).sum / (((l.filter fun s => 0 < s).length : ℕ) : ℚ)) ∧
    (∀ l : List ℚ, (l.filter fun s => 0 < s) ≠ [] → trimmed_scores_of l ≠ []) := by
  refine ⟨?_, rfl, by with_unfolding_all decide, by with_unfolding_all decide, ?_, ?_, ?_⟩
  · intro l h
    unfold calculate_overall_confidence
    by_cases hl : l = []
    · rw [if_pos hl]
    · rw [if_neg hl]
      dsimp only
      have hv : (l.filter fun s => 0 < s) = [] := by
        rw [List.filter_eq_nil_iff]
        intro a ha
        simpa using not_lt.mpr (h a ha)
      rw [if_pos hv]
  · intro l h4
    have hl : l ≠ [] := by
      intro he
      rw [he] at h4
      simp at h4
    have hv : (l.filter fun s => 0 < s) ≠ [] := by
      intro he
      rw [he] at h4
      simp at h4
    have htr : trimmed_scores_of l =
        ((pySorted (l.filter fun s => 0 < s)).take
          ((pySorted (l.filter fun s => 0 < s)).length -
            max 1 ((l.filter fun s => 0 < s).length / 10))).drop
          (max 1 ((l.filter fun s => 0 < s).length / 10)) := by
      unfold trimmed_scores_of
      rw [if_pos h4]
    unfold calculate_overall_confidence
    rw [if_neg hl]
    dsimp only
    rw [if_neg hv, if_pos h4, ← htr, if_neg (trimmed_scores_of_ne_nil l hv)]
  · intro l hv htr
    exact absurd htr (trimmed_scores_of_ne_nil l hv)
  · exact trimmed_scores_of_ne_nil

/-- Witness for C4: all-nonpositive scores give 0, and six scores of 1/2
are trimmed to four and combine to harmonic mean 1/2. -/
theorem overall_confidence_spec_witness :
    calculate_overall_confidence [-1, 0] = 0 ∧
    calculate_overall_confidence [1/2, 1/2, 1/2, 1/2, 1/2, 1/2] =
      min (((trimmed_scores_of [1/2, 1/2, 1/2, 1/2, 1/2, 1/2]).length : ℚ) /
        (((trimmed_scores_of [1/2, 1/2, 1/2, 1/2, 1/2, 1/2]).map
          fun s => 1 / max s (1/100)).sum)) 1 :=
  ⟨overall_confidence_spec.1 [-1, 0] (by with_unfolding_all decide),
   overall_confidence_spec.2.2.2.2.1 [1/2, 1/2, 1/2, 1/2, 1/2, 1/2]
     (by with_unfolding_all decide)⟩

/-- Claim C9: the fallback text classifier scores each document type by
how many of its fixed keywords (10 medical, 9 prescription, 10 invoice)
occur in the lowercased OCR text, and returns the highest-scoring type,
ties resolved in the enumeration order medical_bill, prescription,
invoice. -/
theorem keyword_classifier_spec :
    medical_keywords.length = 10 ∧ prescription_keywords.length = 9 ∧
    invoice_keywords.length = 10 ∧
    ∀ text : String,
      classify_from_text text =
        (if keyword_score prescription_keywords (pyLower text) ≤
              keyword_score medical_keywords (pyLower text) ∧
            keyword_score invoice_keywords (pyLower text) ≤
              keyword_score medical_keywords (pyLower text) then "medical_bill"
         else if keyword_score invoice_keywords (pyLower text) ≤
              keyword_score prescription_keywords (pyLower text) then "prescription"
         else "invoice") := by
  refine ⟨rfl, rfl, rfl, ?_⟩
  intro text
  unfold classify_from_text pyMaxKey
  dsimp only
  rw [List.foldl_cons, List.foldl_cons, List.foldl_nil]
  dsimp only
  set m := keyword_score medical_keywords (pyLower text) with hm
  set p := keyword_score prescription_keywords (pyLower text) with hp
  set i := keyword_score invoice_keywords (pyLower text) with hi
  by_cases h1 : m < p
  · rw [if_pos h1]
    dsimp only
    by_cases h2 : p < i
    · rw [if_pos h2]
      have hA : ¬(p ≤ m ∧ i ≤ m) := fun hand => absurd h1 (not_lt.mpr hand.1)
      have hB : ¬(i ≤ p) := not_le.mpr h2
      rw [if_neg hA, if_neg hB]
    · rw [if_neg h2]
      have hA : ¬(p ≤ m ∧ i ≤ m) := fun hand => absurd h1 (not_lt.mpr hand.1)
      have hB : i ≤ p := not_lt.mp h2
      rw [if_neg hA, if_pos hB]
  · rw [if_neg h1]
    dsimp only
    by_cases h2 : m < i
    · rw [if_pos h2]
      have hA : ¬(p ≤ m ∧ i ≤ m) := fun hand => absurd h2 (not_lt.mpr hand.2)
      have hB : ¬(i ≤ p) := by
        have hpm : p ≤ m := not_lt.mp h1
        omega
      rw [if_neg hA, if_neg hB]
    · rw [if_neg h2]
      have hA : p ≤ m ∧ i ≤ m := ⟨not_lt.mp h1, not_lt.mp h2⟩
      rw [if_pos hA]

/-- Witness for C6 on a single confident invoice-number run. -/
theorem emitted_field_invariants_witness :
    (ExtractedField.mk "invoice_number" "INV-001" (95/100)).value ≠ "" ∧
    pyStrip (ExtractedField.mk "invoice_number" "INV-001" (95/100)).value ≠ "" ∧
    0 ≤ (ExtractedField.mk "invoice_number" "INV-001" (95/100)).confidence ∧
    (ExtractedField.mk "invoice_number" "INV-001" (95/100)).confidence ≤ 1 := by
  have h := emitted_field_invariants [[⟨"invoice_number", "INV-001", 95/100⟩]]
    (ExtractedField.mk "invoice_number" "INV-001" (95/100))
    (by with_unfolding_all decide)
  exact ⟨h.1, h.2.1, h.2.2.1, h.2.2.2.1⟩

/-- Claim C7 counterexample: the context-consistency dispatch checks
`date` before `amount`/`total`/`price`, so the field `date_amount` with
value `2024` (which strips to the in-range amount 2024) is scored by the
date rule as 0.3, not 0.9; and a blank `amount` value short-circuits to
0.0, not the claimed unparseable score 0.2. -/
theorem amount_context_score_counterexample :
    context_confidence 2026 "date_amount" "2024" = 3/10 ∧ ((3 : ℚ)/10 ≠ 9/10) ∧
    context_confidence 2026 "amount" "   " = 0 ∧ ((0 : ℚ) ≠ 2/10) := by
  refine ⟨?_, ?_, ?_, ?_⟩ <;> with_unfolding_all decide

/-- Claim C7 (amended): for every field whose lowercased name contains
`amount`, `total` or `price` but not `date`, and whose value is non-empty
after trimming, the context-consistency score is the amount rule: strip
non-digit, non-dot characters and parse a float; an unparseable value
scores 0.2, a parsed amount in [0, 1000000] scores 0.9, an amount above
1000000 scores 0.6, and a negative amount would score 0.3 (the stripped
string can never parse negative, so that branch is unreachable). -/
theorem amount_context_score_amended :
    ∀ (currentYear : ℤ) (field_name value : String),
      (containsSub (pyLower field_name) "amount" = true ∨
       containsSub (pyLower field_name) "total" = true ∨
       containsSub (pyLower field_name) "price" = true) →
      containsSub (pyLower field_name) "date" = false →
      pyStrip value ≠ "" →
      context_confidence currentYear field_name value = validate_amount_consistency value ∧
      (parsePyFloat (cleanAmount value) = Option.none →
        validate_amount_consistency value = 2/10) ∧
      (∀ q : ℚ, parsePyFloat (cleanAmount value) = some q →
        (0 ≤ q → q ≤ 1000000 → validate_amount_consistency value = 9/10) ∧
        (1000000 < q → validate_amount_consistency value = 6/10) ∧
        (q < 0 → validate_amount_consistency value = 3/10)) := by
  intro y fn v hkw hdate hv
  have hv0 : ¬(v = "" ∨ pyStrip v = "") := by
    rintro (rfl | h)
    · exact hv (by with_unfolding_all decide)
    · exact hv h
  refine ⟨?_, ?_, ?_⟩
  · unfold context_confidence
    rw [if_neg hv0]
    dsimp only
    have hd : ¬(containsSub (pyLower fn) "date" = true) := by
      rw [hdate]
      exact Bool.false_ne_true
    have hk : (containsSub (pyLower fn) "amount" ||
        containsSub (pyLower fn) "total" || containsSub (pyLower fn) "price") = true := by
      rcases hkw with h | h | h <;> simp [h]
    rw [if_neg hd, if_pos hk]
  · intro hq
    unfold validate_amount_consistency
    rw [hq]
  · intro q hq
    unfold validate_amount_consistency
    rw [hq]
    dsimp only
    refine ⟨?_, ?_, ?_⟩
    · intro h0 h1
      rw [if_pos ⟨h0, h1⟩]
    · intro hgt
      have hA : ¬(0 ≤ q ∧ q ≤ 1000000) := fun hand => absurd hgt (not_lt.mpr hand.2)
      rw [if_neg hA, if_pos hgt]
    · intro hneg
      have hA : ¬(0 ≤ q ∧ q ≤ 1000000) := fun hand => absurd hand.1 (not_le.mpr hneg)
      have hB : ¬(1000000 < q) := by
        have hq6 : q < 1000000 := lt_trans hneg (by norm_num)
        exact not_lt.mpr (le_of_lt hq6)
      rw [if_neg hA, if_neg hB]

set_option maxRecDepth 8000 in
/-- Witness for C7 (amended) on `total_amount` = `"$1,250.00"`, which
strips to `1250.00` and scores 0.9. -/
theorem amount_context_score_amended_witness :
    context_confidence 2026 "total_amount" "$1,250.00" =
      validate_amount_consistency "$1,250.00" ∧
    validate_amount_consistency "$1,250.00" = 9/10 := by
  have h := amount_context_score_amended 2026 "total_amount" "$1,250.00"
    (Or.inl (by with_unfolding_all decide)) (by with_unfolding_all decide)
    (by with_unfolding_all decide)
  refine ⟨h.1, ?_⟩
  exact (h.2.2 1250 (by with_unfolding_all decide)).1 (by norm_num) (by norm_num)

/-- Claim C8 counterexample: a passing rule is recorded under its display
name `amount_format` (the `__name__` with `_validate_` removed), but a
throwing rule is recorded as `_validate_invoice_number_error` — the full
`__name__` plus `_error`, not the display name plus `_error`. -/
theorem thrown_rule_name_counterexample :
    validate_extraction
      [⟨"_validate_amount_format", fun _ => Except.ok true⟩,
       ⟨"_validate_invoice_number", fun _ => Except.error "TypeError"⟩]
      [⟨"total_amount", "$5.00", 95/100⟩] =
      (["amount_format"], ["_validate_invoice_number_error"],
        "Validation error in _validate_invoice_number: TypeError") ∧
    "_validate_invoice_number_error" ≠ "invoice_number_error" := by
  refine ⟨?_, ?_⟩ <;> with_unfolding_all decide

/-- One step of the rule loop only appends to the accumulator. -/
theorem rule_step_shift (fd : List (String × String))
    (acc : List String × List String × List String) (r : PyRule) :
    rule_step fd acc r =
      (acc.1 ++ (rule_step fd ([], [], []) r).1,
       acc.2.1 ++ (rule_step fd ([], [], []) r).2.1,
       acc.2.2 ++ (rule_step fd ([], [], []) r).2.2) := by
  unfold rule_step
  dsimp only
  cases hr : r.run fd with
  | ok b => cases b <;> simp
  | error e => simp

/-- Running the rule loop from an accumulator prepends the accumulator to
the loop's own output. -/
theorem rules_loop_shift (fd : List (String × String)) (rules : List PyRule) :
    ∀ acc : List String × List String × List String,
      rules.foldl (rule_step fd) acc =
        (acc.1 ++ (validate_rules_loop rules fd).1,
         acc.2.1 ++ (validate_rules_loop rules fd).2.1,
         acc.2.2 ++ (validate_rules_loop rules fd).2.2) := by
  induction rules with
  | nil =>
    intro acc
    simp [validate_rules_loop]
  | cons r rs ih =>
    intro acc
    have hloop : validate_rules_loop (r :: rs) fd =
        ((rule_step fd ([], [], []) r).1 ++ (validate_rules_loop rs fd).1,
         (rule_step fd ([], [], []) r).2.1 ++ (validate_rules_loop rs fd).2.1,
         (rule_step fd ([], [], []) r).2.2 ++ (validate_rules_loop rs fd).2.2) := by
      have h0 : validate_rules_loop (r :: rs) fd =
          rs.foldl (rule_step fd) (rule_step fd ([], [], []) r) := by
        unfold validate_rules_loop
        rw [List.foldl_cons]
      rw [h0, ih (rule_step fd ([], [], []) r)]
    rw [List.foldl_cons, ih (rule_step fd acc r), hloop, rule_step_shift fd acc r]
    simp [List.append_assoc]

/-- Claim C8 (amended): a validation predicate that raises is recorded as
a failed rule named `<__name__>_error` — its raw function name (e.g.
`_validate_invoice_number`), not the display name used for passed/failed
entries, suffixed with `_error` — a diagnostic note is appended, the
remaining predicates still run, and after the loop a note counting the
fields with confidence below 0.6 is appended exactly when such fields
exist. -/
theorem thrown_rule_handling_amended :
    ∀ (pre post : List PyRule) (r : PyRule) (fields : List VField) (e : String),
      r.run (buildFieldDict fields) = Except.error e →
      validate_extraction (pre ++ r :: post) fields =
        ((validate_rules_loop pre (buildFieldDict fields)).1 ++
           (validate_rules_loop post (buildFieldDict fields)).1,
         (validate_rules_loop pre (buildFieldDict fields)).2.1 ++
           (r.funcName ++ "_error") :: (validate_rules_loop post (buildFieldDict fields)).2.1,
         pyJoin "; "
           ((validate_rules_loop pre (buildFieldDict fields)).2.2 ++
            ("Validation error in " ++ r.funcName ++ ": " ++ e) ::
              ((validate_rules_loop post (buildFieldDict fields)).2.2 ++
               (if (fields.filter fun f => f.confidence < 6/10).length ≠ 0 then
                 [toString (fields.filter fun f => f.confidence < 6/10).length ++
                   " low-confidence fields"]
                else [])))) := by
  intro pre post r fields e hr
  have hstep : rule_step (buildFieldDict fields) ([], [], []) r =
      ([], [r.funcName ++ "_error"],
       ["Validation error in " ++ r.funcName ++ ": " ++ e]) := by
    unfold rule_step
    dsimp only
    rw [hr]
    rfl
  have hsplit : validate_rules_loop (pre ++ r :: post) (buildFieldDict fields) =
      ((validate_rules_loop pre (buildFieldDict fields)).1 ++
         (validate_rules_loop post (buildFieldDict fields)).1,
       (validate_rules_loop pre (buildFieldDict fields)).2.1 ++
         (r.funcName ++ "_error") :: (validate_rules_loop post (buildFieldDict fields)).2.1,
       (validate_rules_loop pre (buildFieldDict fields)).2.2 ++
         ("Validation error in " ++ r.funcName ++ ": " ++ e) ::
           (validate_rules_loop post (buildFieldDict fields)).2.2) := by
    have h0 : validate_rules_loop (pre ++ r :: post) (buildFieldDict fields) =
        (r :: post).foldl (rule_step (buildFieldDict fields))
          (pre.foldl (rule_step (buildFieldDict fields)) ([], [], [])) := by
      unfold validate_rules_loop
      rw [List.foldl_append]
    have h1 : pre.foldl (rule_step (buildFieldDict fields)) ([], [], []) =
        validate_rules_loop pre (buildFieldDict fields) := rfl
    rw [h0, h1, List.foldl_cons,
      rule_step_shift (buildFieldDict fields) (validate_rules_loop pre (buildFieldDict fields)) r,
      hstep,
      rules_loop_shift (buildFieldDict fields) post _]
    simp [List.append_assoc]
  unfold validate_extraction
  dsimp only
  rw [hsplit]
  by_cases hlow : (fields.filter fun f => f.confidence < 6/10).length ≠ 0
  · rw [if_pos hlow, if_pos hlow]
    simp [List.append_assoc]
  · rw [if_neg hlow, if_neg hlow]
    simp [List.append_assoc]

/-- Witness for C8 (amended): three prescription-style rules where the
middle one raises; the passing and failing rules keep their display
names, the raising one is recorded as `_validate_medication_format_error`,
its diagnostic note is joined with the low-confidence note. -/
theorem thrown_rule_handling_amended_witness :
    validate_extraction
      [⟨"_validate_patient_name", fun _ => Except.ok true⟩,
       ⟨"_validate_medication_format", fun _ => Except.error "AttributeError"⟩,
       ⟨"_validate_doctor_name", fun _ => Except.ok false⟩]
      [⟨"patient_name", "Jane Doe", 1/2⟩] =
      (["patient_name"], ["_validate_medication_format_error", "doctor_name"],
        "Validation error in _validate_medication_format: AttributeError; 1 low-confidence fields") := by
  have h := thrown_rule_handling_amended
    [⟨"_validate_patient_name", fun _ => Except.ok true⟩]
    [⟨"_validate_doctor_name", fun _ => Except.ok false⟩]
    ⟨"_validate_medication_format", fun _ => Except.error "AttributeError"⟩
    [⟨"patient_name", "Jane Doe", 1/2⟩] "AttributeError" rfl
  exact h.trans (by with_unfolding_all decide)

end DocExtract
